import Mathlib

/-!
Shallow embedding of the chrpypy core (expression AST, constraints and
constraint stores, rule model, CHR-block code generator, build
orchestrator) together with proofs about the behaviour its specification
claims.  Text is modelled as `List Char`; Python operations that raise are
modelled with `Option`/`Except`.
-/

namespace Chrpypy

/-- Python-style errors raised by the modelled code.  The class is all the
theorems depend on, so no message payload is carried. -/
inductive PyErr where
  | valueError
  | typeError
  | attributeError
  | indexError
  | keyError
  | runtimeError
  | fileNotFoundError
  deriving DecidableEq, Repr

/-- Index of the first occurrence of `c`, if any. -/
def pyFindAux (c : Char) : List Char → Option Nat
  | [] => none
  | x :: xs => if x = c then some 0 else (pyFindAux c xs).map (· + 1)

/-- `str.find(c)` — index of the first occurrence of `c`, `-1` when absent. -/
def pyFind (c : Char) (xs : List Char) : Int :=
  match pyFindAux c xs with
  | some i => (i : Int)
  | none => -1

/-- Python slice `xs[:k]` for `k ≥ 0` or `k = -1` (the two cases the parser
produces): a negative index counts from the end. -/
def pySliceUpto (xs : List Char) (k : Int) : List Char :=
  if k < 0 then xs.take ((xs.length : Int) + k).toNat else xs.take k.toNat

/-- Python slice `xs[a:-1]` for `a ≥ 0`: drop `a` from the front after
removing the final character. -/
def pySliceFromToLast (xs : List Char) (a : Nat) : List Char :=
  (xs.take (xs.length - 1)).drop a

/-- Python `str.split(sep)` for a one-character separator: always returns at
least one (possibly empty) piece. -/
def pySplit (sep : Char) : List Char → List (List Char)
  | [] => [[]]
  | c :: rest =>
    match pySplit sep rest with
    | [] => [[]]
    | h :: t => if c = sep then [] :: h :: t else (c :: h) :: t

/-- Join pieces with a single separator character (inverse direction of
`pySplit`). -/
def joinSep (sep : Char) : List (List Char) → List Char
  | [] => []
  | [t] => t
  | t :: rest => t ++ sep :: joinSep sep rest

/-- Join pieces with a two-character separator (Python `", ".join`). -/
def joinSep2 (a b : Char) : List (List Char) → List Char
  | [] => []
  | [t] => t
  | t :: rest => t ++ a :: b :: joinSep2 a b rest

/-- ASCII whitespace stripping, `str.strip()`. -/
def pyStrip (xs : List Char) : List Char :=
  (xs.dropWhile (· = ' ')).reverse.dropWhile (· = ' ') |>.reverse

/-- `str.lower()` restricted to ASCII letters. -/
def pyLower (xs : List Char) : List Char :=
  xs.map fun c => if 'A' ≤ c ∧ c ≤ 'Z' then Char.ofNat (c.toNat + 32) else c

/-- Decimal digits of a natural number, most significant first. -/
def natToChars (n : Nat) : List Char :=
  Nat.toDigits 10 n

/-- Python `str(n)` for an integer. -/
def intToChars (n : Int) : List Char :=
  if n < 0 then '-' :: natToChars n.natAbs else natToChars n.natAbs

/-- Parse a non-empty all-digit string into a natural number. -/
def digitsToNat? (xs : List Char) : Option Nat :=
  if xs = [] then none
  else xs.foldlM (fun acc c =>
    if c.isDigit then some (acc * 10 + (c.toNat - '0'.toNat)) else none) 0

/-- Python `int(text)`: surrounding whitespace, an optional sign, then a
non-empty digit run. -/
def pyIntOfChars (xs : List Char) : Option Int :=
  let t := pyStrip xs
  match t with
  | '-' :: rest => (digitsToNat? rest).map fun n => -(n : Int)
  | '+' :: rest => (digitsToNat? rest).map fun n => (n : Int)
  | _ => (digitsToNat? t).map fun n => (n : Int)

/-- The host scalar types registered in `TypeSystem._mapping`. -/
inductive Ty where
  | int
  | float
  | str
  | bool
  deriving DecidableEq, Repr

/-- Host scalar values flowing through the constraint machinery.  Floats are
registered in the type system but no claim exercises float values, so the
value model carries the three discrete scalar kinds. -/
inductive Value where
  | int (n : Int)
  | str (s : List Char)
  | bool (b : Bool)
  deriving DecidableEq, Repr

/-- Python `str(v)`. -/
def pyStrOf : Value → List Char
  | .int n => intToChars n
  | .str s => s
  | .bool b => if b then "True".data else "False".data

/-- `int_caster`: delegates to `int(...)`; an already-integral value passes
through, a boolean coerces to 0/1, a string is parsed. -/
def intCaster : Value → Except PyErr Value
  | .int n => .ok (.int n)
  | .bool b => .ok (.int (if b then 1 else 0))
  | .str s =>
    match pyIntOfChars s with
    | some n => .ok (.int n)
    | none => .error .valueError

/-- `str_caster`: `str(...)` never fails on these values. -/
def strCaster (v : Value) : Except PyErr Value :=
  .ok (.str (pyStrOf v))

/-- `bool_caster`: starts with `input.strip()`, so any non-string input
raises `AttributeError`; a string must read `true`/`false` (any case) or
`1`/`0`. -/
def boolCaster : Value → Except PyErr Value
  | .str s =>
    let t := pyStrip s
    if pyLower t = "false".data then .ok (.bool false)
    else if pyLower t = "true".data then .ok (.bool true)
    else if t = "1".data then .ok (.bool true)
    else if t = "0".data then .ok (.bool false)
    else .error .valueError
  | _ => .error .attributeError

/-- `TypeSystem.cast(value, python_type)`.  The float caster is registered
but never reached by the modelled values, so requesting it on one of them
mirrors Python `float(...)` only for ints and digit strings; no theorem
relies on it. -/
def TypeSystem.cast (v : Value) : Ty → Except PyErr Value
  | .int => intCaster v
  | .str => strCaster v
  | .bool => boolCaster v
  | .float => .error .valueError

/-- `TypeSystem.python_to_chr` grammar tokens. -/
def TypeSystem.pythonToChr : Ty → List Char
  | .int => "?int".data
  | .float => "?double".data
  | .str => "std::string".data
  | .bool => "?bool".data

/-- `TypeSystem.python_to_cpp` native tokens. -/
def TypeSystem.pythonToCpp : Ty → List Char
  | .int => "int".data
  | .float => "double".data
  | .str => "std::string".data
  | .bool => "bool".data

/-- Expression AST nodes of `expressions.py`.  Guard-only combinators
(`And`/`Or`/`Not`) live in a separate type below, mirroring the `Guard`
class hierarchy. -/
inductive Expr where
  | const (v : Value)
  | lvar (name : List Char) (ty : Ty)
  | symbol (name : List Char)
  | anonymous
  | binaryOp (op : List Char) (l r : Expr)
  | unaryOp (op : List Char) (e : Expr)
  | functionCall (name : List Char) (args : List Expr)
  | success
  | failure
  | comparison (op : List Char) (l r : Expr)
  | unification (l r : Expr)

namespace Expr

/-- `Expression.children()` as overridden per subclass. -/
def childrenL : Expr → List Expr
  | .const _ => []
  | .lvar _ _ => []
  | .symbol _ => []
  | .anonymous => []
  | .binaryOp _ l r => [l, r]
  | .unaryOp _ e => [e]
  | .functionCall _ args => args
  | .success => []
  | .failure => []
  | .comparison _ l r => [l, r]
  | .unification l r => [l, r]

/-- `Expression.is_grounded`: `Constant` answers true, the three variable
kinds answer false, every other node takes the conjunction over its
children (the base-class default). -/
def isGrounded : Expr → Bool
  | .const _ => true
  | .lvar _ _ => false
  | .symbol _ => false
  | .anonymous => false
  | .binaryOp _ l r => isGrounded l && isGrounded r
  | .unaryOp _ e => isGrounded e
  | .functionCall _ args => goList args
  | .success => true
  | .failure => true
  | .comparison _ l r => isGrounded l && isGrounded r
  | .unification l r => isGrounded l && isGrounded r
where
  /-- conjunition over a child list, in order. -/
  goList : List Expr → Bool
  | [] => true
  | e :: rest => isGrounded e && goList rest

/-- The childless descendants of a node, depth first (the claim's notion of
"descendant leaf"). -/
def leaves : Expr → List Expr
  | .binaryOp _ l r => leaves l ++ leaves r
  | .unaryOp _ e => leaves e
  | .functionCall n args =>
      match args with
      | [] => [.functionCall n []]
      | a :: rest => leavesList (a :: rest)
  | .comparison _ l r => leaves l ++ leaves r
  | .unification l r => leaves l ++ leaves r
  | e => [e]
where
  /-- depth-first leaves of a non-empty child list. -/
  leavesList : List Expr → List Expr
  | [] => []
  | e :: rest => leaves e ++ leavesList rest

end Expr

/-- `str.upper()` restricted to ASCII letters (single-character variable
names are upper-cased by the grammar renderer). -/
def pyUpper (xs : List Char) : List Char :=
  xs.map fun c => if 'a' ≤ c ∧ c ≤ 'z' then Char.ofNat (c.toNat - 32) else c

namespace Expr

/-- `Constant.to_chrpp`: strings quoted, booleans lower-case, integers in
decimal (`None` constants are not constructible through `ensure_expr` and
are left out of the value model). -/
def constToChrpp : Value → List Char
  | .str s => '"' :: s ++ ['"']
  | .bool b => if b then "true".data else "false".data
  | .int n => intToChars n

/-- `Constant.__repr__`: strings quoted; a boolean is an `int` instance in
the host, so it prints as `True`/`False` via `str`. -/
def constRepr : Value → List Char
  | .str s => '"' :: s ++ ['"']
  | .bool b => if b then "True".data else "False".data
  | .int n => intToChars n

/-- `BinaryOp.OP_MAPPING.get(op, op)` (only `//` and `**` are rewritten). -/
def opMapping (op : List Char) : List Char :=
  if op = "//".data then "/".data
  else if op = "**".data then "pow".data
  else op

/-- `to_chrpp` of every expression node, as each subclass renders itself for
the rule-grammar artifact. -/
def toChrpp : Expr → List Char
  | .const v => constToChrpp v
  | .lvar n _ => if n.length = 1 then pyUpper n else n
  | .symbol n => if n.length = 1 then pyUpper n else n
  | .anonymous => "_".data
  | .binaryOp op l r =>
      if op = "**".data then
        "pow(".data ++ toChrpp l ++ ", ".data ++ toChrpp r ++ ")".data
      else
        '(' :: toChrpp l ++ ' ' :: opMapping op ++ ' ' :: toChrpp r ++ [')']
  | .unaryOp op e => op ++ toChrpp e
  | .functionCall n args =>
      let argsStr := joinSep2 ',' ' ' (goChrpp args)
      "registry.call(\"".data ++ n ++ '"' :: ' ' ::
        (if argsStr = [] then [] else ",".data) ++ ' ' :: argsStr ++ [')']
  | .success => "success()".data
  | .failure => "fail()".data
  | .comparison op l r => toChrpp l ++ ' ' :: op ++ ' ' :: toChrpp r
  | .unification l r => toChrpp l ++ " %= ".data ++ toChrpp r
where
  /-- renderings of an argument list, in order. -/
  goChrpp : List Expr → List (List Char)
  | [] => []
  | e :: rest => toChrpp e :: goChrpp rest

/-- `__repr__` of every expression node (Python `str(...)` falls through to
it). -/
def reprPy : Expr → List Char
  | .const v => constRepr v
  | .lvar n _ => n
  | .symbol n => n
  | .anonymous => "_".data
  | .binaryOp op l r => '(' :: reprPy l ++ ' ' :: op ++ ' ' :: reprPy r ++ [')']
  | .unaryOp op e => op ++ reprPy e
  | .functionCall n args => n ++ '(' :: joinSep2 ',' ' ' (goRepr args) ++ [')']
  | .success => "success()".data
  | .failure => "fail()".data
  | .comparison op l r => reprPy l ++ ' ' :: op ++ ' ' :: reprPy r
  | .unification l r => reprPy l ++ " %= ".data ++ reprPy r
where
  /-- reprs of an argument list, in order. -/
  goRepr : List Expr → List (List Char)
  | [] => []
  | e :: rest => reprPy e :: goRepr rest

end Expr

/-- A fact template instance: `Constraint.(name, args, pragma)`. -/
structure Constraint where
  name : List Char
  args : List Expr
  pragma : Option (List Char)

/-- `Constraint.is_grounded`. -/
def Constraint.isGroundedC (c : Constraint) : Bool :=
  c.args.all Expr.isGrounded

/-- `Constraint.__repr__`: `name()` when there are no arguments, otherwise
`name(arg, arg, ...)#pragma` where a missing pragma prints as `None`. -/
def Constraint.reprC (c : Constraint) : List Char :=
  match c.args with
  | [] => c.name ++ "()".data
  | _ =>
    c.name ++ '(' :: joinSep2 ',' ' ' (c.args.map Expr.reprPy) ++ ")#".data ++
      (match c.pragma with
       | none => "None".data
       | some p => p)

/-- `rec_extract_values` inside `Constraint.extract_values`: constants yield
their value, surviving variables/symbols raise `TypeError`, any other
childless node raises `ValueError` (malformed tree), and interior nodes
concatenate their children's values in order, propagating the first
error. -/
def Expr.recExtract : Expr → Except PyErr (List Value)
  | .const v => .ok [v]
  | .lvar _ _ => .error .typeError
  | .symbol _ => .error .typeError
  | .anonymous => .error .valueError
  | .success => .error .valueError
  | .failure => .error .valueError
  | .binaryOp _ l r => do pure ((← recExtract l) ++ (← recExtract r))
  | .unaryOp _ e => recExtract e
  | .comparison _ l r => do pure ((← recExtract l) ++ (← recExtract r))
  | .unification l r => do pure ((← recExtract l) ++ (← recExtract r))
  | .functionCall _ [] => .error .valueError
  | .functionCall _ (a :: rest) => goExtract (a :: rest)
where
  /-- extraction over a child list, first error wins. -/
  goExtract : List Expr → Except PyErr (List Value)
  | [] => .ok []
  | e :: rest => do pure ((← recExtract e) ++ (← goExtract rest))

/-- `Constraint.extract_values`: refuses non-grounded constraints with
`ValueError`, otherwise flattens every argument depth first. -/
def Constraint.extractValues (c : Constraint) : Except PyErr (List Value) :=
  if c.isGroundedC then do
    let vss ← c.args.mapM Expr.recExtract
    pure vss.flatten
  else .error .valueError

/-- A host value handed to a store call or an operator: either already an
`Expression` or a registered scalar. -/
inductive HostVal where
  | expr (e : Expr)
  | int (n : Int)
  | str (s : List Char)
  | bool (b : Bool)

/-- `ensure_expr`: expressions pass through, registered scalars become
constants. -/
def ensureExpr : HostVal → Expr
  | .expr e => e
  | .int n => .const (.int n)
  | .str s => .const (.str s)
  | .bool b => .const (.bool b)

/-- `isinstance(arg, Expression)`. -/
def HostVal.isExpr : HostVal → Bool
  | .expr _ => true
  | _ => false

/-- `isinstance(arg, expected_type)` for the declared store types; a host
boolean is an instance of `int`. -/
def HostVal.compatWith : HostVal → Ty → Bool
  | .int _, .int => true
  | .bool _, .int => true
  | .bool _, .bool => true
  | .str _, .str => true
  | _, _ => false

/-- `ConstraintStore.__call__`: with a non-empty declared type list it
checks the arity, then flags the first argument that is neither an
`Expression` nor an instance of its declared type; with an empty type list
no validation happens at all.  On success the arguments are wrapped through
`ensure_expr`. -/
def storeCall (types : List Ty) (name : List Char) (args : List HostVal)
    (pragma : Option (List Char)) : Except PyErr Constraint :=
  if 0 < types.length ∧ args.length ≠ types.length then .error .valueError
  else if 0 < types.length ∧
      (args.zip types).any (fun p => !p.1.isExpr && !(p.1.compatWith p.2)) then
    .error .typeError
  else .ok ⟨name, args.map ensureExpr, pragma⟩

/-- `ConstraintStore.from_chr_string`: the name is the text before the first
`#` (all but the last character when there is none), the argument text is
everything strictly between the first `(` and the final character, split on
`,`, and each piece is cast positionally through the store's declared
types.  A cast failure or an argument index beyond the declared types
(Python `IndexError`) is `none`; an empty declared type list skips parsing
the arguments entirely.  The positional cast loop is factored out here. -/
def castPositional (types : List Ty) (argsTexts : List (List Char)) :
    Option (List Value) :=
  argsTexts.enum.mapM fun p => do
    let ty ← types.get? p.1
    match TypeSystem.cast (.str p.2) ty with
    | .ok v => some v
    | .error _ => none

/-- `ConstraintStore.from_chr_string` proper: name, argument slice, comma
split, positional casts, then `Constraint(name, *values)` (whose arguments
come out wrapped as constants). -/
def fromChrString (types : List Ty) (input : List Char) : Option Constraint :=
  let name := pySliceUpto input (pyFind '#' input)
  let argsTexts :=
    pySplit ',' (pySliceFromToLast input (pyFind '(' input + 1).toNat)
  if types = [] then some ⟨name, [], none⟩
  else do
    let vals ← castPositional types argsTexts
    some ⟨name, vals.map Expr.const, none⟩

namespace Expr

/-- `Expression.__eq__`: builds a `Comparison` node, never a boolean. -/
def dunderEq (a : Expr) (b : HostVal) : Expr :=
  .comparison "==".data a (ensureExpr b)

/-- `Expression.__ne__`. -/
def dunderNe (a : Expr) (b : HostVal) : Expr :=
  .comparison "!=".data a (ensureExpr b)

/-- `Expression.__lt__`. -/
def dunderLt (a : Expr) (b : HostVal) : Expr :=
  .comparison "<".data a (ensureExpr b)

/-- `Expression.__le__`. -/
def dunderLe (a : Expr) (b : HostVal) : Expr :=
  .comparison "<=".data a (ensureExpr b)

/-- `Expression.__gt__`. -/
def dunderGt (a : Expr) (b : HostVal) : Expr :=
  .comparison ">".data a (ensureExpr b)

/-- `Expression.__ge__`. -/
def dunderGe (a : Expr) (b : HostVal) : Expr :=
  .comparison ">=".data a (ensureExpr b)

end Expr

/-- Join pieces with an arbitrary separator string. -/
def joinList (sep : List Char) : List (List Char) → List Char
  | [] => []
  | [t] => t
  | t :: rest => t ++ sep ++ joinList sep rest

/-- Boolean guard combinators of `expressions.py` (`Comparison` doubles as a
guard; `And`/`Or`/`Not` are guard-only). -/
inductive GuardE where
  | cmp (op : List Char) (l r : Expr)
  | and (gs : List GuardE)
  | or (gs : List GuardE)
  | not (g : GuardE)

namespace GuardE

/-- `to_chrpp` of a guard for the rule-grammar artifact. -/
def toChrppG : GuardE → List Char
  | .cmp op l r => l.toChrpp ++ ' ' :: op ++ ' ' :: r.toChrpp
  | .and gs => joinList " and ".data (goListAnd gs)
  | .or gs => joinList " or ".data ((goListOr gs).map fun p => '(' :: p ++ [')'])
  | .not g => "!(".data ++ toChrppG g ++ ")".data
where
  /-- conjunct renderings, in order. -/
  goListAnd : List GuardE → List (List Char)
  | [] => []
  | g :: rest => toChrppG g :: goListAnd rest
  /-- disjunct renderings, in order. -/
  goListOr : List GuardE → List (List Char)
  | [] => []
  | g :: rest => toChrppG g :: goListOr rest

/-- `__repr__` of a guard (used by `Rule.to_str` through `str`). -/
def reprG : GuardE → List Char
  | .cmp op l r => l.reprPy ++ ' ' :: op ++ ' ' :: r.reprPy
  | .and gs => '(' :: joinList " ∧ ".data (goReprAnd gs) ++ [')']
  | .or gs => '(' :: joinList " ∨ ".data (goReprOr gs) ++ [')']
  | .not g => "¬(".data ++ reprG g ++ ")".data
where
  /-- conjunct reprs, in order. -/
  goReprAnd : List GuardE → List (List Char)
  | [] => []
  | g :: rest => reprG g :: goReprAnd rest
  /-- disjunct reprs, in order. -/
  goReprOr : List GuardE → List (List Char)
  | [] => []
  | g :: rest => reprG g :: goReprOr rest

end GuardE

/-- One element of a rule body (`BodyType`): a constraint or an expression
node (`Success`, `Failure`, `FunctionCall`, `Unification`). -/
inductive BodyItem where
  | constraint (c : Constraint)
  | expr (e : Expr)

/-- `str(item)` for a body element. -/
def BodyItem.reprB : BodyItem → List Char
  | .constraint c => c.reprC
  | .expr e => e.reprPy

/-- The head argument shapes `_normalize_list` accepts. -/
inductive HeadArg where
  | none
  | one (c : Constraint)
  | listOf (cs : List Constraint)
  | tupleOf (cs : List Constraint)

/-- `_normalize_list`. -/
def normalizeList : HeadArg → List Constraint
  | .none => []
  | .one c => [c]
  | .listOf cs => cs
  | .tupleOf cs => cs

/-- The guard argument shapes `_normalize_guard` accepts; a Python `set`
argument is modelled as the list in which its members are enumerated. -/
inductive GuardArg where
  | none
  | one (g : GuardE)
  | listOf (gs : List GuardE)
  | setOf (gs : List GuardE)

/-- `_normalize_guard`: lists become `And`, sets become `Or`, empty
collections become no guard. -/
def normalizeGuard : GuardArg → Option GuardE
  | .none => Option.none
  | .one g => some g
  | .listOf [] => Option.none
  | .listOf gs => some (.and gs)
  | .setOf [] => Option.none
  | .setOf gs => some (.or gs)

/-- The body argument shapes `_normalize_body` accepts. -/
inductive BodyArg where
  | none
  | one (b : BodyItem)
  | listOf (bs : List BodyItem)

/-- `_normalize_body`. -/
def normalizeBody : BodyArg → List BodyItem
  | .none => []
  | .one b => [b]
  | .listOf bs => bs

/-- The normalized rule representation (`Rule` dataclass fields; the
positive head is retained on firing, the negative head removed). -/
structure RuleS where
  name : Option (List Char)
  positiveHead : List Constraint
  negativeHead : List Constraint
  guard : Option GuardE
  body : List BodyItem
  id : Nat

/-- `SimplificationRule.__init__`: the single head list lands in
`positive_head` and `negative_head` is left empty; the `_id` expression
`next(count().__next__() for _ in range(1))` draws the first element of a
fresh counter, so it is always 0. -/
def simplificationRule (head : HeadArg) (guard : GuardArg) (body : BodyArg)
    (name : Option (List Char)) : RuleS :=
  ⟨name, normalizeList head, [], normalizeGuard guard, normalizeBody body, 0⟩

/-- `PropagationRule.__init__`: the single head list lands in
`negative_head` and `positive_head` is left empty. -/
def propagationRule (head : HeadArg) (guard : GuardArg) (body : BodyArg)
    (name : Option (List Char)) : RuleS :=
  ⟨name, [], normalizeList head, normalizeGuard guard, normalizeBody body, 0⟩

/-- `SimpagationRule.__init__`: both heads land where they are named. -/
def simpagationRule (positive negative : HeadArg) (guard : GuardArg)
    (body : BodyArg) (name : Option (List Char)) : RuleS :=
  ⟨name, normalizeList positive, normalizeList negative, normalizeGuard guard,
    normalizeBody body, 0⟩

/-- `Rule._format_body` (`str`-based, for `to_str`): an empty body renders
as `true`; the source's special case for a singleton `Success`/`Failure` is
`str(body[0])`, which coincides with the general comma join of a singleton
list. -/
def formatBodyStr (body : List BodyItem) : List Char :=
  match body with
  | [] => "true".data
  | items => joinSep2 ',' ' ' (items.map BodyItem.reprB)

/-- `Rule.to_str`: raises when both heads are empty, otherwise renders
`name @ heads <op> guard body` with `==>` for an empty negative head and
`<=>` otherwise (the retained segment and backslash only appear when both
heads are present). -/
def ruleToStr (r : RuleS) : Except PyErr (List Char) :=
  match r.positiveHead, r.negativeHead with
  | [], [] => .error .valueError
  | pos, neg =>
    let namePre := match r.name with
      | some n => n
      | none => "Rule".data ++ natToChars r.id
    let guardStr := match r.guard with
      | some g => ' ' :: g.reprG ++ " |".data
      | none => []
    let bodyStr := formatBodyStr r.body
    let posStr := joinSep2 ',' ' ' (pos.map Constraint.reprC)
    let negStr := joinSep2 ',' ' ' (neg.map Constraint.reprC)
    if neg.isEmpty then
      .ok (namePre ++ " @ ".data ++ posStr ++ " ==> ".data ++ guardStr ++
        ' ' :: bodyStr)
    else if pos.isEmpty then
      .ok (namePre ++ " @ ".data ++ negStr ++ " <=> ".data ++ guardStr ++
        ' ' :: bodyStr)
    else
      .ok (namePre ++ " @ ".data ++ posStr ++ " \\ ".data ++ negStr ++
        " <=> ".data ++ guardStr ++ ' ' :: bodyStr)

/-- `ConstraintFormatter.format_constraint`: `to_chrpp` arguments joined
with `, `; the pragma segment appears only when the pragma is truthy (a
missing or empty pragma is omitted). -/
def formatConstraint (c : Constraint) : List Char :=
  match c.args with
  | [] => c.name ++ "()".data
  | args =>
    let base := c.name ++ '(' :: joinSep2 ',' ' ' (args.map Expr.toChrpp) ++ [')']
    match c.pragma with
    | none => base
    | some [] => base
    | some p => base ++ '#' :: p

/-- `ConstraintFormatter.format_head` on an (always normalized) head
list. -/
def formatHead (head : List Constraint) : List Char :=
  match head with
  | [] => []
  | cs => joinSep2 ',' ' ' (cs.map formatConstraint)

/-- `ConstraintFormatter.format_body` on an (always normalized) body list:
empty renders `success()`; items that are neither constraints nor
`Success`/`Failure`/`FunctionCall`/`Unification` nodes are silently
skipped. -/
def formatBodyChr (body : List BodyItem) : List Char :=
  match body with
  | [] => "success()".data
  | items =>
    joinSep2 ',' ' ' (items.filterMap fun item =>
      match item with
      | .constraint c => some (formatConstraint c)
      | .expr (.success) => some (Expr.success).toChrpp
      | .expr (.failure) => some (Expr.failure).toChrpp
      | .expr (.functionCall n args) => some (Expr.functionCall n args).toChrpp
      | .expr (.unification l r) => some (Expr.unification l r).toChrpp
      | .expr _ => none)

/-- `CHRBlockGenerator._generate_rule_string`: tab indent, rule label, then
`retained \ removed <=>` when both heads are present, `removed <=>` for a
negative-only head, `retained ==>` for a positive-only head, then the
optional guard segment and the body, closed by `;;`. -/
def generateRuleString (r : RuleS) : List Char :=
  "\t\t".data ++
    (match r.name with
     | some n => n ++ " @ ".data
     | none => "rule".data ++ natToChars r.id ++ " @ ".data) ++
    (match r.positiveHead, r.negativeHead with
     | _ :: _, _ :: _ =>
        formatHead r.positiveHead ++ " \\ ".data ++
          formatHead r.negativeHead ++ " <=> ".data
     | [], _ :: _ => formatHead r.negativeHead ++ " <=> ".data
     | _ :: _, [] => formatHead r.positiveHead ++ " ==> ".data
     | [], [] => []) ++
    (match r.guard with
     | some g => g.toChrppG ++ " | ".data
     | none => []) ++
    formatBodyChr r.body ++ ";;\n".data

/-- A declared constraint store: name and declared type list. -/
structure StoreDecl where
  name : List Char
  types : List Ty

/-- One store's `name(typeToken, ...)` signature line entry. -/
def storeSignature (s : StoreDecl) : List Char :=
  s.name ++ '(' :: joinSep2 ',' ' ' (s.types.map TypeSystem.pythonToChr) ++ [')']

/-- A `Program` snapshot as the generators read it: name, declared stores
(in registration order) and the rule list (in declaration order). -/
structure ProgramSnap where
  name : List Char
  stores : List StoreDecl
  rules : List RuleS

/-- `Program._retrieve_callbacks`: every `FunctionCall` appearing directly
in some rule body, in order. -/
def retrieveCallbacks (rules : List RuleS) : List (List Char × List Expr) :=
  rules.flatMap fun r =>
    r.body.filterMap fun item =>
      match item with
      | .expr (.functionCall n args) => some (n, args)
      | _ => none

/-- `CHRBlockGenerator._get_constraint_signatures` builds a Python `set` of
signature strings; its iteration order is unspecified, modelled here as
first-occurrence order.  The theorems below only use programs for which
every order gives the same conclusion. -/
def constraintSignatures (stores : List StoreDecl) : List (List Char) :=
  (stores.map storeSignature).eraseDups

/-- `CHRBlockGenerator.generate`: the comment block with the `<CHR>` header
(carrying a callback-registry parameter exactly when some rule body invokes
a callback), the deduplicated signature line, one rendered line per rule,
and the closing tags. -/
def chrBlockGenerate (p : ProgramSnap) : List Char :=
  "/**\n".data ++
    (if !(retrieveCallbacks p.rules).isEmpty then
      "\t<CHR name=\"".data ++ p.name ++
        "\" parameters=\"PythonCallbackRegistry& registry\">\n".data
     else "\t<CHR name=\"".data ++ p.name ++ "\">\n".data) ++
    "\t<chr_constraint> ".data ++
    joinSep2 ',' ' ' (constraintSignatures p.stores) ++ "\n".data ++
    (p.rules.map generateRuleString).flatten ++
    "\t</CHR>\n*/".data

/-- `Program._compute_rules_hash` feeds `rule.to_str()` for every rule, in
order, into one SHA-256 object.  Digesting is modelled by the byte stream
itself (an injective idealization of the hash); the artifacts' rendered
texts contribute nothing. -/
def rulesHashInput (rules : List RuleS) : Except PyErr (List Char) := do
  let strs ← rules.mapM ruleToStr
  pure strs.flatten

/-- `Compiler._compute_hash` feeds the full rule-grammar text and then the
full bridge text into one SHA-256 object; the digest is modelled by the
hashed byte stream itself. -/
def computeHashInput (chrppText bindingsText : List Char) : List Char :=
  chrppText ++ bindingsText

/-- A file inside one build directory. -/
structure FileEntry where
  fname : List Char
  content : List Char

/-- One subdirectory of the program's build folder. -/
structure DirEntry where
  dname : List Char
  files : List FileEntry

/-- The mutable `Compiler` fields the compile flow touches.  `dirs` lists
the build folder's subdirectories oldest-modification-time first. -/
structure CompilerSt where
  wrapper : Option Nat
  compiled : Bool
  dirs : List DirEntry
  currentHashFolder : List Char
  useCache : Bool
  maxHistory : Nat

/-- What one failing toolchain stage reports: `str(e)` of the
`CalledProcessError` and the captured stderr (the Python f-string renders
the stderr bytes object; its `b`-quoting wrappers are immaterial to the
containment facts proved below and are omitted). -/
structure StageFailure where
  excText : List Char
  stderrText : List Char

/-- Everything `Compiler.compile` reads from outside the `Compiler` object:
path existence, the content hash, the cache probe, the two rendered
artifact texts, the external toolchain stages' outcomes, the dynamic-load
result, and each store's current projection (`store.get()` per registered
store, in registration order). -/
structure BuildEnv where
  progName : List Char
  pathsExist : Bool
  currentHash : List Char
  cacheHasArtifact : Bool
  chrppText : List Char
  bindingsText : List Char
  stage1 : Option StageFailure
  extractOk : Bool
  stage2 : Option StageFailure
  loadedArtifact : Nat
  storeFacts : List (List Char × List Constraint)

/-- The diagnostic text `_handle_compilation_error` writes:
`{stage} compilation failed with error:\n{error}` plus the subprocess
stderr section when stderr is non-empty. -/
def compilationErrorMessage (stage excText stderrText : List Char) : List Char :=
  stage ++ " compilation failed with error:\n".data ++ excText ++
    (if stderrText.isEmpty then []
     else "\n\nSubprocess stderr:\n".data ++ stderrText)

/-- `Compiler._handle_compilation_error`: when the in-progress hash folder
exists, any stale error folder for it is removed, the hash folder is
renamed to `compilation_error_<hash>` and a `COMPILATION_ERROR` file with
the diagnostic text is written inside it; `current_hash_folder` then points
at the error folder. -/
def handleCompilationError (st : CompilerSt) (stage excText stderrText : List Char) :
    CompilerSt :=
  if st.dirs.any (fun d => d.dname == st.currentHashFolder) then
    let errName := "compilation_error_".data ++ st.currentHashFolder
    let msg := compilationErrorMessage stage excText stderrText
    let dirs1 := st.dirs.filter fun d => d.dname != errName
    let dirs2 := dirs1.map fun d =>
      if d.dname == st.currentHashFolder then
        ⟨errName, d.files ++ [⟨"COMPILATION_ERROR".data, msg⟩]⟩
      else d
    { st with dirs := dirs2, currentHashFolder := errName }
  else st

/-- `Compiler._cleanup_old_history`: drop oldest-by-mtime directories until
at most `max_history` remain. -/
def cleanupOldHistory (dirs : List DirEntry) (maxHistory : Nat) : List DirEntry :=
  if dirs.length ≤ maxHistory then dirs else dirs.drop (dirs.length - maxHistory)

/-- Final state plus the error class `Compiler.compile` raised, if any. -/
structure CompileOutcome where
  state : CompilerSt
  err : Option PyErr

/-- Add a file to the named directory. -/
def writeFileIn (dirs : List DirEntry) (dname : List Char) (f : FileEntry) :
    List DirEntry :=
  dirs.map fun d => if d.dname == dname then ⟨d.dname, d.files ++ [f]⟩ else d

/-- `Compiler.compile(load_previous_stores)`: snapshot every store's current
facts first (only when a previous compile succeeded and stores exist), fail
fast on missing paths, short-circuit through the cache, otherwise write the
two rendered artifacts into a fresh hash directory, run the two toolchain
stages (routing a non-zero exit through `_handle_compilation_error` and
re-raising as `RuntimeError`), load the artifact, evict old cache entries,
and finally repost the snapshot — which resolves the attribute `posts` on
`ConstraintStore`, a method that class does not define, so a non-empty
snapshot raises `AttributeError` after the new artifact is already
active. -/
def compileModel (st : CompilerSt) (env : BuildEnv) (loadPreviousStores : Bool) :
    CompileOutcome :=
  let save : List (List Char × List Constraint) :=
    if loadPreviousStores && st.compiled && !env.storeFacts.isEmpty then
      env.storeFacts
    else []
  if !env.pathsExist then ⟨st, some .fileNotFoundError⟩
  else if st.useCache && env.cacheHasArtifact then
    ⟨{ st with
        currentHashFolder := env.currentHash
        compiled := true
        wrapper := some env.loadedArtifact }, none⟩
  else
    let st := { st with currentHashFolder := env.currentHash }
    let st := { st with dirs :=
      (st.dirs.filter fun (d : DirEntry) => d.dname != env.currentHash) ++
        [({ dname := env.currentHash, files := [] } : DirEntry)] }
    let st := { st with dirs := (writeFileIn st.dirs env.currentHash
      ⟨env.progName ++ "-pychr.chrpp".data, env.chrppText⟩) }
    match env.stage1 with
    | some f => ⟨handleCompilationError st "CHRPP".data f.excText f.stderrText,
        some .runtimeError⟩
    | none =>
      let st := { st with dirs := (writeFileIn st.dirs env.currentHash
        ⟨env.progName ++ "_bindings.cpp".data, env.bindingsText⟩) }
      if !env.extractOk then ⟨st, some .runtimeError⟩
      else
        match env.stage2 with
        | some f => ⟨handleCompilationError st "C++".data f.excText f.stderrText,
            some .runtimeError⟩
        | none =>
          let st := { st with dirs := (writeFileIn st.dirs env.currentHash
            ⟨env.progName ++ ".so".data, []⟩) }
          let st := { st with compiled := true }
          let st := { st with dirs := cleanupOldHistory st.dirs st.maxHistory }
          let st := { st with wrapper := some env.loadedArtifact }
          if loadPreviousStores && !save.isEmpty then
            ⟨st, some .attributeError⟩
          else ⟨st, none⟩

/-- A store-name-indexed map of cached projections (`_cache` per store). -/
def CacheMap : Type := List (List Char × List Constraint)

/-- `Program.post` (the compile-trigger preamble aside): requires the
wrapper to expose `add_<name>`, extracts the constraint's scalar values
(which raises `ValueError` for any non-grounded constraint — there is no
separate path for logical-variable arguments), casts each value through the
Type Registry at the declared type of its position, and resets every
store's cached projection.  The result carries the values handed to the
generated entry point and the cleared caches. -/
def programPost (storeTypesOf : List Char → Option (List Ty))
    (wrapperHasAdd : List Char → Bool) (caches : CacheMap) (c : Constraint) :
    Except PyErr (List Value × CacheMap) :=
  if wrapperHasAdd c.name then do
    let values ← c.extractValues
    let castVals ← values.enum.mapM fun p => do
      match storeTypesOf c.name with
      | none => Except.error PyErr.keyError
      | some types =>
        match types.get? p.1 with
        | none => Except.error PyErr.indexError
        | some ty => TypeSystem.cast p.2 ty
    pure (castVals, caches.map fun q => (q.1, []))
  else .error .valueError

/-- Specification-side predicate: the node is a `Constant`. -/
def Expr.isConstNode : Expr → Bool
  | .const _ => true
  | _ => false

/-- Specification-side predicate: the childless node kinds on which
`is_grounded` answers true (constants plus the childless non-terminal
nodes the base-class default vacuously accepts). -/
def Expr.isGroundLeaf : Expr → Bool
  | .const _ => true
  | .success => true
  | .failure => true
  | .functionCall _ [] => true
  | _ => false

/-- Specification-side predicate: the node is a pattern variable
(`Symbol`), a logical-variable handle, or the anonymous wildcard. -/
def Expr.isVarLike : Expr → Bool
  | .lvar _ _ => true
  | .symbol _ => true
  | .anonymous => true
  | _ => false

/-- The scalar carried by a `Constant` node, if the node is one. -/
def Expr.constVal? : Expr → Option Value
  | .const v => some v
  | _ => none

/-- The scalar values sitting at an expression's `Constant` leaves, depth
first. -/
def Expr.leafVals (e : Expr) : List Value :=
  e.leaves.filterMap Expr.constVal?

/-- The depth-first leaves of a constraint's argument trees, concatenated
in argument order. -/
def Constraint.argLeaves (c : Constraint) : List Expr :=
  (c.args.map Expr.leaves).flatten

/-- The scalar values at a constraint's `Constant` argument leaves, in
argument order. -/
def Constraint.leafScalars (c : Constraint) : List Value :=
  (c.args.map Expr.leafVals).flatten

/-- The methods the `ConstraintStore` class body defines. -/
def constraintStoreMethods : List (List Char) :=
  ["__init__".data, "__call__".data, "post".data, "get".data,
    "from_chr_string".data, "reset_cache".data]

/-- The attribute name `Compiler.compile`'s repost loop resolves on each
saved store. -/
def repostMethodName : List Char :=
  "posts".data

/-- Substring test used to state what a diagnostic file contains. -/
def hasSubstring (pat : List Char) : List Char → Bool
  | [] => pat.isEmpty
  | c :: rest => pat.isPrefixOf (c :: rest) || hasSubstring pat rest

/-! Theorems.  Each claim of the specification gets one theorem (plus a
counterexample where the claim fails as stated, and a closed witness where
the theorem carries hypotheses). -/

/-- C10: on any expression `a` and any expression-or-registered-scalar `b`,
each of the six comparison dunder methods returns a `Comparison` AST node
carrying the corresponding operator, `a` on the left and `ensure_expr(b)`
on the right; none of them returns a boolean — in particular `==` never
returns a truth value, so it cannot test structural equality. -/
theorem C10_comparison_operators_build_ast (a : Expr) (b : HostVal) :
    Expr.dunderEq a b = Expr.comparison "==".data a (ensureExpr b) ∧
    Expr.dunderNe a b = Expr.comparison "!=".data a (ensureExpr b) ∧
    Expr.dunderLt a b = Expr.comparison "<".data a (ensureExpr b) ∧
    Expr.dunderLe a b = Expr.comparison "<=".data a (ensureExpr b) ∧
    Expr.dunderGt a b = Expr.comparison ">".data a (ensureExpr b) ∧
    Expr.dunderGe a b = Expr.comparison ">=".data a (ensureExpr b) ∧
    (∀ v : Value, Expr.dunderEq a b ≠ Expr.const v) ∧
    (∀ v : Value, Expr.dunderNe a b ≠ Expr.const v) := by
  refine ⟨rfl, rfl, rfl, rfl, rfl, rfl, ?_, ?_⟩ <;>
    exact fun v h => Expr.noConfusion h

/-- C9 counterexample: through a store whose declared type list is empty,
construction with one argument succeeds even though the argument count (1)
differs from the length of the declared type list (0) — the arity check is
guarded by `len(self.types) > 0`. -/
theorem C9_store_arity_counterexample :
    storeCall [] "c".data [HostVal.int 5] none =
      .ok ⟨"c".data, [Expr.const (.int 5)], none⟩ ∧
    [HostVal.int 5].length ≠ ([] : List Ty).length := by
  exact ⟨rfl, by decide⟩

/-- C9 amended: for a store with a NON-EMPTY declared type list `T`,
constructing a constraint with an argument count different from `|T|`
raises a ConfigurationError-class error (`ValueError`), constructing one
with some argument that is neither an `Expression` nor an instance of its
positional declared type raises a ConfigurationError-class error
(`TypeError`), and construction succeeds otherwise, wrapping each argument
through `ensure_expr`; a store with an empty declared type list performs no
validation at all. -/
theorem C9_store_construction_checks (types : List Ty) (nm : List Char)
    (args : List HostVal) (pg : Option (List Char)) (hne : types ≠ []) :
    (args.length ≠ types.length → storeCall types nm args pg = .error .valueError) ∧
    (args.length = types.length →
      (∃ p ∈ args.zip types, p.1.isExpr = false ∧ p.1.compatWith p.2 = false) →
      storeCall types nm args pg = .error .typeError) ∧
    (args.length = types.length →
      (∀ p ∈ args.zip types, p.1.isExpr = true ∨ p.1.compatWith p.2 = true) →
      storeCall types nm args pg = .ok ⟨nm, args.map ensureExpr, pg⟩) := by
  have hpos : 0 < types.length := List.length_pos.mpr hne
  refine ⟨fun hlen => ?_, fun hlen hbad => ?_, fun hlen hgood => ?_⟩
  · simp [storeCall, hpos, hlen]
  · have hany : (args.zip types).any
        (fun p => !p.1.isExpr && !(p.1.compatWith p.2)) = true := by
      rw [List.any_eq_true]
      obtain ⟨p, hp, h1, h2⟩ := hbad
      exact ⟨p, hp, by simp [h1, h2]⟩
    simp [storeCall, hpos, hlen, hany]
  · have hany : (args.zip types).any
        (fun p => !p.1.isExpr && !(p.1.compatWith p.2)) = false := by
      rw [List.any_eq_false]
      intro p hp
      rcases hgood p hp with h | h <;> simp [h]
    simp [storeCall, hpos, hlen, hany]

/-- C9 witness: with declared types `[int]`, a wrong arity is rejected, a
string argument in the int position is rejected, and a fitting integer
argument is accepted. -/
theorem C9_store_construction_checks_witness :
    (storeCall [Ty.int] "c".data [] none = .error .valueError) ∧
    (storeCall [Ty.int] "c".data [HostVal.str "x".data] none = .error .typeError) ∧
    (storeCall [Ty.int] "c".data [HostVal.int 5] none =
      .ok ⟨"c".data, [Expr.const (.int 5)], none⟩) :=
  ⟨(C9_store_construction_checks [Ty.int] "c".data [] none (by decide)).1
      (by decide),
    (C9_store_construction_checks [Ty.int] "c".data [HostVal.str "x".data] none
      (by decide)).2.1 (by decide) ⟨(HostVal.str "x".data, Ty.int),
        List.Mem.head _, by decide, by decide⟩,
    (C9_store_construction_checks [Ty.int] "c".data [HostVal.int 5] none
      (by decide)).2.2 (by decide) (by
        intro p hp
        cases hp with
        | head => right; decide
        | tail _ h => cases h)⟩

/-- C2: evaluation at the failing input.  `SimplificationRule` puts its
single head list into `positive_head` (the retained slot) and leaves
`negative_head` empty, so the generator renders it with `==>` and no
removal; `PropagationRule` puts its head into `negative_head` (the removed
slot) and renders with `<=>`.  This is the opposite of the claimed shapes;
only the simpagation shape matches the claim. -/
theorem C2_rule_shapes_at_failing_input :
    (simplificationRule (.one ⟨"gcd".data, [Expr.const (.int 0)], none⟩)
        .none .none none).positiveHead =
      [⟨"gcd".data, [Expr.const (.int 0)], none⟩] ∧
    (simplificationRule (.one ⟨"gcd".data, [Expr.const (.int 0)], none⟩)
        .none .none none).negativeHead = [] ∧
    generateRuleString (simplificationRule
        (.one ⟨"gcd".data, [Expr.const (.int 0)], none⟩) .none .none none) =
      "\t\trule0 @ gcd(0) ==> success();;\n".data ∧
    (propagationRule (.one ⟨"gcd".data, [Expr.const (.int 0)], none⟩)
        .none .none none).negativeHead =
      [⟨"gcd".data, [Expr.const (.int 0)], none⟩] ∧
    (propagationRule (.one ⟨"gcd".data, [Expr.const (.int 0)], none⟩)
        .none .none none).positiveHead = [] ∧
    generateRuleString (propagationRule
        (.one ⟨"gcd".data, [Expr.const (.int 0)], none⟩) .none .none none) =
      "\t\trule0 @ gcd(0) <=> success();;\n".data ∧
    generateRuleString (simpagationRule
        (.one ⟨"gcd".data, [Expr.symbol "n".data], none⟩)
        (.one ⟨"gcd".data, [Expr.symbol "m".data], none⟩) .none .none none) =
      "\t\trule0 @ gcd(N) \\ gcd(M) <=> success();;\n".data :=
  ⟨rfl, rfl, rfl, rfl, rfl, rfl, rfl⟩

/-- C4: evaluation at the failing input.  `Program.post` calls
`extract_values` before any casting, and a constraint whose argument is a
logical-variable handle is not grounded, so the post raises `ValueError`
instead of passing an engine-variable reference — even though the wrapper
exposes the matching `add_` entry point.  A grounded post does cast each
extracted value positionally and resets every store's cached
projection. -/
theorem C4_post_logical_variable_fails :
    (⟨"res".data, [Expr.lvar "Res".data Ty.int], none⟩ :
      Constraint).isGroundedC = false ∧
    programPost (fun _ => some [Ty.int]) (fun _ => true) []
      ⟨"res".data, [Expr.lvar "Res".data Ty.int], none⟩ = .error .valueError ∧
    programPost (fun _ => some [Ty.int]) (fun _ => true)
      [("gcd".data, [⟨"gcd".data, [Expr.const (.int 7)], none⟩])]
      ⟨"gcd".data, [Expr.const (.int 182)], none⟩ =
      .ok ([Value.int 182], [("gcd".data, [])]) :=
  ⟨rfl, rfl, rfl⟩

/-- C3: evaluation at the failing input.  With a previously compiled
artifact, one store holding one fact, and a clean rebuild, the snapshot is
taken, the fresh artifact becomes active, and the repost loop then raises
`AttributeError`, because it invokes the attribute `posts` on each saved
store and the `ConstraintStore` class defines no such method — so the
saved facts are never reposted. -/
theorem C3_state_preservation_repost_fails :
    repostMethodName ∉ constraintStoreMethods ∧
    (compileModel
        ⟨some 1, true, [], "h0".data, true, 50⟩
        ⟨"P".data, true, "h1".data, false, "chrpp".data, "bind".data,
          none, true, none, 2,
          [("gcd".data, [⟨"gcd".data, [Expr.const (.int 2)], none⟩])]⟩
        true).err = some .attributeError ∧
    (compileModel
        ⟨some 1, true, [], "h0".data, true, 50⟩
        ⟨"P".data, true, "h1".data, false, "chrpp".data, "bind".data,
          none, true, none, 2,
          [("gcd".data, [⟨"gcd".data, [Expr.const (.int 2)], none⟩])]⟩
        true).state.wrapper = some 2 := by
  refine ⟨by decide, rfl, rfl⟩

/-- C1 counterexample: rendering the grounded constraint `gcd(182)` of a
store declared `(int,)` gives the fact text `gcd(182)#None`; parsing that
text back takes everything before the first `#` as the name — `gcd(182)`,
not `gcd` — and the argument slice `182)#Non` fails the int cast, so
`from_chr_string` raises instead of returning an equal constraint. -/
theorem C1_roundtrip_counterexample :
    Constraint.reprC ⟨"gcd".data, [Expr.const (.int 182)], none⟩ =
      "gcd(182)#None".data ∧
    pySliceUpto "gcd(182)#None".data (pyFind '#' "gcd(182)#None".data) =
      "gcd(182)".data ∧
    pySliceFromToLast "gcd(182)#None".data
      (pyFind '(' "gcd(182)#None".data + 1).toNat = "182)#Non".data ∧
    fromChrString [Ty.int] "gcd(182)#None".data = none :=
  ⟨rfl, rfl, rfl, rfl⟩

/-- C5 counterexample: the cache key actually used by `Program.compile` is
`_compute_rules_hash`, fed only with each rule's `to_str` — not with the
rendered artifact texts.  Two snapshots that differ only in a pattern
variable's name case (`n` vs `N`) render byte-identical rule-grammar text
(single-character variables are upper-cased by `to_chrpp`), yet their
`to_str` byte streams — and hence their cache keys — differ; so byte-equal
artifacts do not receive the same hash.  (The stores are identical, so the
bridge artifact is unaffected.) -/
theorem C5_cache_key_counterexample :
    chrBlockGenerate ⟨"P".data, [⟨"gcd".data, [Ty.int]⟩],
        [⟨some "r".data, [], [⟨"gcd".data, [Expr.symbol "n".data], none⟩],
          none, [], 0⟩]⟩ =
      chrBlockGenerate ⟨"P".data, [⟨"gcd".data, [Ty.int]⟩],
        [⟨some "r".data, [], [⟨"gcd".data, [Expr.symbol "N".data], none⟩],
          none, [], 1⟩]⟩ ∧
    rulesHashInput [⟨some "r".data, [],
        [⟨"gcd".data, [Expr.symbol "n".data], none⟩], none, [], 0⟩] =
      .ok "r @ gcd(n)#None <=>  true".data ∧
    rulesHashInput [⟨some "r".data, [],
        [⟨"gcd".data, [Expr.symbol "N".data], none⟩], none, [], 1⟩] =
      .ok "r @ gcd(N)#None <=>  true".data ∧
    "r @ gcd(n)#None <=>  true".data ≠ "r @ gcd(N)#None <=>  true".data :=
  ⟨rfl, rfl, rfl, by decide⟩

/-- C5 amended: `Compiler._compute_hash` digests the concatenation of the
two rendered artifacts' full texts, so byte-identical artifact pairs
receive the same hash, and — with the other text unchanged — any change to
either rendered text changes the digested byte stream (hence the hash,
short of a SHA-256 collision).  The cache key `Program.compile` consults,
however, is `Program._compute_rules_hash` over the rules' `to_str` lines
only, which the counterexample shows is neither artifact-complete nor
artifact-respecting. -/
theorem C5_hash_over_both_artifacts (a b a2 b2 : List Char) :
    (a = a2 → b = b2 → computeHashInput a b = computeHashInput a2 b2) ∧
    (b = b2 → a ≠ a2 → computeHashInput a b ≠ computeHashInput a2 b2) ∧
    (a = a2 → b ≠ b2 → computeHashInput a b ≠ computeHashInput a2 b2) := by
  refine ⟨fun h1 h2 => by rw [computeHashInput, h1, h2, computeHashInput],
    fun hb ha hcontra => ?_, fun ha hb hcontra => ?_⟩
  · subst hb
    exact ha (List.append_cancel_right hcontra)
  · subst ha
    exact hb (List.append_cancel_left hcontra)

/-- C5 witness: equal artifact texts share the hash input; changing one
character of the bridge text changes it. -/
theorem C5_hash_over_both_artifacts_witness :
    computeHashInput "g".data "y".data = computeHashInput "g".data "y".data ∧
    computeHashInput "g".data "y".data ≠ computeHashInput "g".data "z".data :=
  ⟨(C5_hash_over_both_artifacts "g".data "y".data "g".data "y".data).1 rfl rfl,
    (C5_hash_over_both_artifacts "g".data "y".data "g".data "z".data).2.2 rfl
      (by decide)⟩

theorem goList_eq_all (xs : List Expr) :
    Expr.isGrounded.goList xs = xs.all Expr.isGrounded := by
  induction xs with
  | nil => rfl
  | cons e rest ih => simp [Expr.isGrounded.goList, ih]

theorem leavesList_eq_flatten (xs : List Expr) :
    Expr.leaves.leavesList xs = (xs.map Expr.leaves).flatten := by
  induction xs with
  | nil => rfl
  | cons e rest ih => simp [Expr.leaves.leavesList, ih]

theorem grounded_iff_groundLeaves (e : Expr) :
    Expr.isGrounded e = true ↔
      ∀ l ∈ Expr.leaves e, Expr.isGroundLeaf l = true := by
  suffices H : ∀ n (e : Expr), sizeOf e ≤ n →
      (Expr.isGrounded e = true ↔
        ∀ l ∈ Expr.leaves e, Expr.isGroundLeaf l = true) from
    H (sizeOf e) e le_rfl
  intro n
  induction n with
  | zero =>
    intro e he
    exact absurd he (by cases e <;> simp_arith)
  | succ n ih =>
    intro e he
    cases e with
    | const v => simp [Expr.isGrounded, Expr.leaves, Expr.isGroundLeaf]
    | lvar nm ty => simp [Expr.isGrounded, Expr.leaves, Expr.isGroundLeaf]
    | symbol nm => simp [Expr.isGrounded, Expr.leaves, Expr.isGroundLeaf]
    | anonymous => simp [Expr.isGrounded, Expr.leaves, Expr.isGroundLeaf]
    | success => simp [Expr.isGrounded, Expr.leaves, Expr.isGroundLeaf]
    | failure => simp [Expr.isGrounded, Expr.leaves, Expr.isGroundLeaf]
    | unaryOp op a =>
      have ha : sizeOf a ≤ n := by
        have : sizeOf a < sizeOf (Expr.unaryOp op a) := by simp_arith
        omega
      rw [show Expr.isGrounded (.unaryOp op a) = Expr.isGrounded a from rfl,
        show Expr.leaves (.unaryOp op a) = Expr.leaves a from rfl]
      exact ih a ha
    | binaryOp op a b =>
      have ha : sizeOf a ≤ n := by
        have : sizeOf a < sizeOf (Expr.binaryOp op a b) := by simp_arith
        omega
      have hb : sizeOf b ≤ n := by
        have : sizeOf b < sizeOf (Expr.binaryOp op a b) := by simp_arith
        omega
      rw [show Expr.isGrounded (.binaryOp op a b) =
          (Expr.isGrounded a && Expr.isGrounded b) from rfl,
        show Expr.leaves (.binaryOp op a b) =
          Expr.leaves a ++ Expr.leaves b from rfl,
        Bool.and_eq_true, ih a ha, ih b hb, List.forall_mem_append]
    | comparison op a b =>
      have ha : sizeOf a ≤ n := by
        have : sizeOf a < sizeOf (Expr.comparison op a b) := by simp_arith
        omega
      have hb : sizeOf b ≤ n := by
        have : sizeOf b < sizeOf (Expr.comparison op a b) := by simp_arith
        omega
      rw [show Expr.isGrounded (.comparison op a b) =
          (Expr.isGrounded a && Expr.isGrounded b) from rfl,
        show Expr.leaves (.comparison op a b) =
          Expr.leaves a ++ Expr.leaves b from rfl,
        Bool.and_eq_true, ih a ha, ih b hb, List.forall_mem_append]
    | unification a b =>
      have ha : sizeOf a ≤ n := by
        have : sizeOf a < sizeOf (Expr.unification a b) := by simp_arith
        omega
      have hb : sizeOf b ≤ n := by
        have : sizeOf b < sizeOf (Expr.unification a b) := by simp_arith
        omega
      rw [show Expr.isGrounded (.unification a b) =
          (Expr.isGrounded a && Expr.isGrounded b) from rfl,
        show Expr.leaves (.unification a b) =
          Expr.leaves a ++ Expr.leaves b from rfl,
        Bool.and_eq_true, ih a ha, ih b hb, List.forall_mem_append]
    | functionCall nm args =>
      cases args with
      | nil => simp [Expr.isGrounded, Expr.isGrounded.goList, Expr.leaves,
          Expr.isGroundLeaf]
      | cons a rest =>
        have hsize : ∀ x ∈ a :: rest, sizeOf x ≤ n := by
          intro x hx
          have h1 : sizeOf x < sizeOf (a :: rest) := List.sizeOf_lt_of_mem hx
          have h2 : sizeOf (a :: rest) <
              sizeOf (Expr.functionCall nm (a :: rest)) := by simp_arith
          omega
        rw [show Expr.isGrounded (.functionCall nm (a :: rest)) =
            Expr.isGrounded.goList (a :: rest) from rfl,
          show Expr.leaves (.functionCall nm (a :: rest)) =
            Expr.leaves.leavesList (a :: rest) from rfl,
          goList_eq_all, leavesList_eq_flatten, List.all_eq_true]
        constructor
        · intro h l hl
          obtain ⟨L, hL, hlL⟩ := List.mem_flatten.mp hl
          obtain ⟨x, hx, rfl⟩ := List.mem_map.mp hL
          exact (ih x (hsize x hx)).mp (h x hx) l hlL
        · intro h x hx
          refine (ih x (hsize x hx)).mpr fun l hl => ?_
          exact h l (List.mem_flatten.mpr
            ⟨Expr.leaves x, List.mem_map_of_mem _ hx, hl⟩)

/-- C7 counterexample: `Success` is a childless non-`Constant` node, yet
`is_grounded` answers true on it (the base-class default is vacuously true
on an empty child list), so "grounded iff every descendant leaf is a
Constant" fails in the only-if direction. -/
theorem C7_grounded_success_counterexample :
    Expr.isGrounded Expr.success = true ∧
    Expr.leaves Expr.success = [Expr.success] ∧
    (Expr.leaves Expr.success).all Expr.isConstNode = false :=
  ⟨rfl, rfl, rfl⟩

/-- C7 amended: `is_grounded` holds iff every descendant leaf is a
`Constant`, a `Success`, a `Failure`, or a zero-argument `FunctionCall`
(the childless node kinds the base-class conjunction vacuously accepts).
In particular an expression all of whose leaves are constants is grounded,
and an expression containing a pattern variable, logical-variable handle,
or the anonymous wildcard is never grounded. -/
theorem C7_grounded_characterization (e : Expr) :
    (Expr.isGrounded e = true ↔
      ∀ l ∈ Expr.leaves e, Expr.isGroundLeaf l = true) ∧
    ((∀ l ∈ Expr.leaves e, Expr.isConstNode l = true) →
      Expr.isGrounded e = true) ∧
    ((∃ l ∈ Expr.leaves e, Expr.isVarLike l = true) →
      Expr.isGrounded e = false) := by
  refine ⟨grounded_iff_groundLeaves e, fun h => ?_, fun ⟨l, hl, hv⟩ => ?_⟩
  · refine (grounded_iff_groundLeaves e).mpr fun l hl => ?_
    have := h l hl
    cases l <;> simp_all [Expr.isConstNode, Expr.isGroundLeaf]
  · by_contra hg
    rw [Bool.not_eq_false] at hg
    have := (grounded_iff_groundLeaves e).mp hg l hl
    cases l <;> simp_all [Expr.isVarLike, Expr.isGroundLeaf]

/-- C7 witness: `1 + 2` has only constant leaves and is grounded; an
expression containing the symbol `n` is not. -/
theorem C7_grounded_characterization_witness :
    Expr.isGrounded
      (Expr.binaryOp "+".data (Expr.const (.int 1)) (Expr.const (.int 2))) =
      true ∧
    Expr.isGrounded
      (Expr.binaryOp "+".data (Expr.symbol "n".data) (Expr.const (.int 2))) =
      false :=
  ⟨(C7_grounded_characterization _).2.1 (by decide),
    (C7_grounded_characterization _).2.2
      ⟨Expr.symbol "n".data, List.Mem.head _, rfl⟩⟩

theorem leafVals_binaryOp (op : List Char) (a b : Expr) :
    (Expr.binaryOp op a b).leafVals = a.leafVals ++ b.leafVals := by
  simp [Expr.leafVals, Expr.leaves, List.filterMap_append]

theorem leafVals_comparison (op : List Char) (a b : Expr) :
    (Expr.comparison op a b).leafVals = a.leafVals ++ b.leafVals := by
  simp [Expr.leafVals, Expr.leaves, List.filterMap_append]

theorem leafVals_unification (a b : Expr) :
    (Expr.unification a b).leafVals = a.leafVals ++ b.leafVals := by
  simp [Expr.leafVals, Expr.leaves, List.filterMap_append]

theorem recExtract_ok_of_const_leaves (e : Expr)
    (h : ∀ l ∈ Expr.leaves e, Expr.isConstNode l = true) :
    Expr.recExtract e = .ok e.leafVals := by
  revert h
  suffices H : ∀ n (e : Expr), sizeOf e ≤ n →
      (∀ l ∈ Expr.leaves e, Expr.isConstNode l = true) →
      Expr.recExtract e = .ok e.leafVals from H (sizeOf e) e le_rfl
  intro n
  induction n with
  | zero =>
    intro e he
    exact absurd he (by cases e <;> simp_arith)
  | succ n ih =>
    intro e he h
    cases e with
    | const v => rfl
    | lvar nm ty => simp [Expr.leaves, Expr.isConstNode] at h
    | symbol nm => simp [Expr.leaves, Expr.isConstNode] at h
    | anonymous => simp [Expr.leaves, Expr.isConstNode] at h
    | success => simp [Expr.leaves, Expr.isConstNode] at h
    | failure => simp [Expr.leaves, Expr.isConstNode] at h
    | unaryOp op a =>
      have ha : sizeOf a ≤ n := by
        have : sizeOf a < sizeOf (Expr.unaryOp op a) := by simp_arith
        omega
      rw [show Expr.recExtract (.unaryOp op a) = Expr.recExtract a from rfl,
        show (Expr.unaryOp op a).leafVals = a.leafVals from rfl]
      exact ih a ha h
    | binaryOp op a b =>
      have ha : sizeOf a ≤ n := by
        have : sizeOf a < sizeOf (Expr.binaryOp op a b) := by simp_arith
        omega
      have hb : sizeOf b ≤ n := by
        have : sizeOf b < sizeOf (Expr.binaryOp op a b) := by simp_arith
        omega
      rw [show Expr.leaves (.binaryOp op a b) =
          Expr.leaves a ++ Expr.leaves b from rfl,
        List.forall_mem_append] at h
      simp only [Expr.recExtract, ih a ha h.1, ih b hb h.2, leafVals_binaryOp]
      rfl
    | comparison op a b =>
      have ha : sizeOf a ≤ n := by
        have : sizeOf a < sizeOf (Expr.comparison op a b) := by simp_arith
        omega
      have hb : sizeOf b ≤ n := by
        have : sizeOf b < sizeOf (Expr.comparison op a b) := by simp_arith
        omega
      rw [show Expr.leaves (.comparison op a b) =
          Expr.leaves a ++ Expr.leaves b from rfl,
        List.forall_mem_append] at h
      simp only [Expr.recExtract, ih a ha h.1, ih b hb h.2, leafVals_comparison]
      rfl
    | unification a b =>
      have ha : sizeOf a ≤ n := by
        have : sizeOf a < sizeOf (Expr.unification a b) := by simp_arith
        omega
      have hb : sizeOf b ≤ n := by
        have : sizeOf b < sizeOf (Expr.unification a b) := by simp_arith
        omega
      rw [show Expr.leaves (.unification a b) =
          Expr.leaves a ++ Expr.leaves b from rfl,
        List.forall_mem_append] at h
      simp only [Expr.recExtract, ih a ha h.1, ih b hb h.2, leafVals_unification]
      rfl
    | functionCall nm args =>
      cases args with
      | nil => simp [Expr.leaves, Expr.isConstNode] at h
      | cons a rest =>
        have hsize : ∀ x ∈ a :: rest, sizeOf x ≤ n := by
          intro x hx
          have h1 : sizeOf x < sizeOf (a :: rest) := List.sizeOf_lt_of_mem hx
          have h2 : sizeOf (a :: rest) <
              sizeOf (Expr.functionCall nm (a :: rest)) := by simp_arith
          omega
        rw [show Expr.leaves (.functionCall nm (a :: rest)) =
            Expr.leaves.leavesList (a :: rest) from rfl] at h
        have key : ∀ xs : List Expr, (∀ x ∈ xs, sizeOf x ≤ n) →
            (∀ l ∈ Expr.leaves.leavesList xs, Expr.isConstNode l = true) →
            Expr.recExtract.goExtract xs =
              .ok ((Expr.leaves.leavesList xs).filterMap Expr.constVal?) := by
          intro xs
          induction xs with
          | nil => intro _ _; rfl
          | cons x xs ihx =>
            intro hs hcl
            rw [show Expr.leaves.leavesList (x :: xs) =
                Expr.leaves x ++ Expr.leaves.leavesList xs from rfl,
              List.forall_mem_append] at hcl
            have hx := ih x (hs x (List.Mem.head _)) hcl.1
            have hxs := ihx (fun y hy => hs y (List.Mem.tail _ hy)) hcl.2
            simp only [Expr.recExtract.goExtract, hx, hxs]
            rw [show Expr.leaves.leavesList (x :: xs) =
              Expr.leaves x ++ Expr.leaves.leavesList xs from rfl]
            simp [Expr.leafVals, List.filterMap_append]
            rfl
        rw [show Expr.recExtract (.functionCall nm (a :: rest)) =
            Expr.recExtract.goExtract (a :: rest) from rfl,
          show (Expr.functionCall nm (a :: rest)).leafVals =
            (Expr.leaves.leavesList (a :: rest)).filterMap Expr.constVal?
            from rfl]
        exact key (a :: rest) hsize h

theorem mapM_recExtract_ok (xs : List Expr)
    (h : ∀ x ∈ xs, Expr.recExtract x = .ok x.leafVals) :
    xs.mapM Expr.recExtract = .ok (xs.map Expr.leafVals) := by
  induction xs with
  | nil => rfl
  | cons x xs ihx =>
    rw [List.mapM_cons, h x (List.Mem.head _),
      ihx fun y hy => h y (List.Mem.tail _ hy)]
    rfl

/-- C8 counterexample: the constraint `c(success())` is grounded by the
code's own `is_grounded`, yet `extract_values` raises `ValueError` on it
(a childless node that is not a `Constant` is treated as a malformed
tree), so "for every grounded constraint, `extract_values` returns its
leaf scalars" fails. -/
theorem C8_extract_values_counterexample :
    (⟨"c".data, [Expr.success], none⟩ : Constraint).isGroundedC = true ∧
    (⟨"c".data, [Expr.success], none⟩ : Constraint).extractValues =
      .error .valueError :=
  ⟨rfl, rfl⟩

/-- C8 amended: for every constraint all of whose argument leaves are
`Constant` nodes, `extract_values` returns exactly the depth-first leaf
scalars of its argument trees, concatenated in argument order; for every
non-grounded constraint it raises `ValueError` and returns no values.
(A grounded constraint with a childless non-`Constant` descendant — the
counterexample — also raises.) -/
theorem C8_extract_values_characterization (c : Constraint) :
    ((∀ l ∈ c.argLeaves, l.isConstNode = true) →
      c.extractValues = .ok c.leafScalars) ∧
    (c.isGroundedC = false → c.extractValues = .error .valueError) := by
  constructor
  · intro h
    have hargs : ∀ a ∈ c.args, ∀ l ∈ a.leaves, l.isConstNode = true := by
      intro a ha l hl
      refine h l ?_
      unfold Constraint.argLeaves
      exact List.mem_flatten.mpr ⟨a.leaves, List.mem_map_of_mem _ ha, hl⟩
    have hg : c.isGroundedC = true := by
      unfold Constraint.isGroundedC
      rw [List.all_eq_true]
      intro a ha
      refine (grounded_iff_groundLeaves a).mpr fun l hl => ?_
      have := hargs a ha l hl
      cases l <;> simp_all [Expr.isConstNode, Expr.isGroundLeaf]
    have hmap : c.args.mapM Expr.recExtract = .ok (c.args.map Expr.leafVals) :=
      mapM_recExtract_ok c.args fun a ha =>
        recExtract_ok_of_const_leaves a (hargs a ha)
    simp only [Constraint.extractValues, hg, if_true, hmap]
    rfl
  · intro h
    simp [Constraint.extractValues, h]

/-- C8 witness: `gcd(40 + 2)` extracts to `[40, 2]`; the non-grounded
`res(Res)` raises. -/
theorem C8_extract_values_characterization_witness :
    (⟨"gcd".data,
      [Expr.binaryOp "+".data (Expr.const (.int 40)) (Expr.const (.int 2))],
      none⟩ : Constraint).extractValues = .ok [Value.int 40, Value.int 2] ∧
    (⟨"res".data, [Expr.lvar "Res".data Ty.int], none⟩ :
      Constraint).extractValues = .error .valueError :=
  ⟨(C8_extract_values_characterization _).1 (by decide),
    (C8_extract_values_characterization _).2 (by decide)⟩

theorem isPrefixOf_append_self (p r : List Char) :
    List.isPrefixOf p (p ++ r) = true := by
  induction p with
  | nil => cases r <;> simp [List.isPrefixOf]
  | cons c p ih => simp [List.isPrefixOf, ih]

theorem hasSubstring_self_append (p r : List Char) :
    hasSubstring p (p ++ r) = true := by
  cases p with
  | nil =>
    cases r with
    | nil => rfl
    | cons c r => simp [hasSubstring, List.isPrefixOf]
  | cons c p => simp [hasSubstring, isPrefixOf_append_self]

theorem hasSubstring_append_of (a p s : List Char)
    (h : hasSubstring p s = true) : hasSubstring p (a ++ s) = true := by
  induction a with
  | nil => exact h
  | cons c a ih => simp [hasSubstring, ih]

theorem hasSubstring_middle (a p r : List Char) :
    hasSubstring p (a ++ p ++ r) = true := by
  rw [List.append_assoc]
  exact hasSubstring_append_of a p (p ++ r) (hasSubstring_self_append p r)

theorem writeFileIn_append_singleton (A : List DirEntry) (h : List Char)
    (fs : List FileEntry) (f : FileEntry)
    (hA : ∀ d ∈ A, (d.dname == h) = false) :
    writeFileIn (A ++ [⟨h, fs⟩]) h f = A ++ [⟨h, fs ++ [f]⟩] := by
  unfold writeFileIn
  rw [List.map_append]
  congr 1
  · rw [List.map_congr_left fun d hd => ?_, List.map_id]
    simp [hA d hd]
  · simp

theorem errName_ne_hash (h : List Char) :
    "compilation_error_".data ++ h ≠ h := by
  intro contra
  have := congrArg List.length contra
  simp [List.length_append] at this
  omega

theorem map_rename_id (A : List DirEntry) (h err : List Char) (g : FileEntry)
    (hA : ∀ d ∈ A, (d.dname == h) = false) :
    A.map (fun d => if (d.dname == h) = true then
      (⟨err, d.files ++ [g]⟩ : DirEntry) else d) = A := by
  induction A with
  | nil => rfl
  | cons d A ih =>
    rw [List.map_cons, if_neg (by simp [hA d (List.Mem.head _)]),
      ih fun x hx => hA x (List.Mem.tail _ hx)]

theorem handleCompilationError_on_present (A : List DirEntry) (h : List Char)
    (fs : List FileEntry) (w : Option Nat) (cpl uc : Bool) (mh : Nat)
    (stage exc stderr : List Char)
    (hA : ∀ d ∈ A, (d.dname == h) = false) :
    handleCompilationError ⟨w, cpl, A ++ [⟨h, fs⟩], h, uc, mh⟩ stage exc stderr =
      ⟨w, cpl,
        (A.filter fun d => d.dname != ("compilation_error_".data ++ h)) ++
          [⟨"compilation_error_".data ++ h,
            fs ++ [⟨"COMPILATION_ERROR".data,
              compilationErrorMessage stage exc stderr⟩]⟩],
        "compilation_error_".data ++ h, uc, mh⟩ := by
  have hAe : ∀ d ∈ A.filter
      (fun d => d.dname != ("compilation_error_".data ++ h)),
      (d.dname == h) = false := fun d hd => hA d (List.mem_filter.mp hd).1
  have hany : ((A ++ [(⟨h, fs⟩ : DirEntry)]).any fun d => d.dname == h) = true := by
    simp
  dsimp only [handleCompilationError]
  rw [if_pos hany]
  rw [show ((A ++ [(⟨h, fs⟩ : DirEntry)]).filter
      fun d => d.dname != ("compilation_error_".data ++ h)) =
      (A.filter fun d => d.dname != ("compilation_error_".data ++ h)) ++
        [⟨h, fs⟩] by
    simp [List.filter_append]
    exact fun hh => errName_ne_hash h hh.symm]
  rw [List.map_append, map_rename_id _ _ _ _ hAe]
  simp

theorem compile_stage2_failure_eq (st : CompilerSt) (env : BuildEnv) (lp : Bool)
    (f : StageFailure)
    (hpaths : env.pathsExist = true)
    (hnocache : (st.useCache && env.cacheHasArtifact) = false)
    (hstage1 : env.stage1 = none)
    (hextract : env.extractOk = true)
    (hstage2 : env.stage2 = some f) :
    compileModel st env lp =
      ⟨handleCompilationError
        ⟨st.wrapper, st.compiled,
          (st.dirs.filter fun d => d.dname != env.currentHash) ++
            [⟨env.currentHash,
              [⟨env.progName ++ "-pychr.chrpp".data, env.chrppText⟩,
               ⟨env.progName ++ "_bindings.cpp".data, env.bindingsText⟩]⟩],
          env.currentHash, st.useCache, st.maxHistory⟩
        "C++".data f.excText f.stderrText, some .runtimeError⟩ := by
  have hA : ∀ d ∈ (st.dirs.filter fun d => d.dname != env.currentHash),
      (d.dname == env.currentHash) = false := by
    intro d hd
    have h2 := (List.mem_filter.mp hd).2
    simpa [bne] using h2
  simp only [compileModel, hpaths, hstage1, hextract, hstage2, hnocache,
    Bool.not_true, Bool.false_eq_true, if_false]
  rw [writeFileIn_append_singleton _ _ _ _ hA,
    writeFileIn_append_singleton _ _ _ _ hA]
  rfl

/-- C6: whenever the stage-2 (native) toolchain subprocess exits non-zero,
`Compiler.compile` raises a `RuntimeError`, the previously active wrapper
and compiled flag are left untouched (no artifact is activated by that
compile), the in-progress hash directory is gone, and an error-tagged
sibling directory `compilation_error_<hash>` holds a `COMPILATION_ERROR`
diagnostic whose text contains the failing stage name (`C++`) and the
captured stderr text. -/
theorem C6_stage2_failure_recovery (st : CompilerSt) (env : BuildEnv)
    (lp : Bool) (f : StageFailure)
    (hpaths : env.pathsExist = true)
    (hnocache : st.useCache = false ∨ env.cacheHasArtifact = false)
    (hstage1 : env.stage1 = none)
    (hextract : env.extractOk = true)
    (hstage2 : env.stage2 = some f) :
    (compileModel st env lp).err = some .runtimeError ∧
    (compileModel st env lp).state.wrapper = st.wrapper ∧
    (compileModel st env lp).state.compiled = st.compiled ∧
    (∃ files,
      (⟨"compilation_error_".data ++ env.currentHash, files⟩ : DirEntry) ∈
        (compileModel st env lp).state.dirs ∧
      (⟨"COMPILATION_ERROR".data,
        compilationErrorMessage "C++".data f.excText f.stderrText⟩ :
          FileEntry) ∈ files ∧
      hasSubstring "C++".data
        (compilationErrorMessage "C++".data f.excText f.stderrText) = true ∧
      (f.stderrText ≠ [] → hasSubstring f.stderrText
        (compilationErrorMessage "C++".data f.excText f.stderrText) = true)) ∧
    (∀ d ∈ (compileModel st env lp).state.dirs, d.dname ≠ env.currentHash) := by
  have hnc : (st.useCache && env.cacheHasArtifact) = false := by
    rcases hnocache with h | h <;> simp [h]
  have hA : ∀ d ∈ (st.dirs.filter fun d => d.dname != env.currentHash),
      (d.dname == env.currentHash) = false := by
    intro d hd
    have h2 := (List.mem_filter.mp hd).2
    simpa [bne] using h2
  rw [compile_stage2_failure_eq st env lp f hpaths hnc hstage1 hextract hstage2,
    handleCompilationError_on_present _ _ _ _ _ _ _ _ _ _ hA]
  refine ⟨rfl, rfl, rfl, ?_, ?_⟩
  · refine ⟨_, List.mem_append_right _ (List.Mem.head _), ?_, ?_, ?_⟩
    · exact List.mem_append_right _ (List.Mem.head _)
    · unfold compilationErrorMessage
      rw [List.append_assoc]
      exact hasSubstring_self_append _ _
    · intro hne
      unfold compilationErrorMessage
      rw [if_neg (by simpa using hne)]
      rw [show ("C++".data ++ " compilation failed with error:\n".data ++
          f.excText ++
          ("\n\nSubprocess stderr:\n".data ++ f.stderrText)) =
          (("C++".data ++ " compilation failed with error:\n".data ++
            f.excText ++ "\n\nSubprocess stderr:\n".data) ++ f.stderrText ++
            []) by simp]
      exact hasSubstring_middle _ _ _
  · intro d hd
    rcases List.mem_append.mp hd with hmem | hmem
    · have h1 := (List.mem_filter.mp hmem).1
      have h2 := (List.mem_filter.mp h1).2
      simpa [bne] using h2
    · rcases hmem with _ | ⟨_, h⟩
      · exact fun hh => errName_ne_hash env.currentHash hh
      · cases h

/-- C6 witness: a concrete compile whose stage-2 invocation fails with
stderr `boom` raises, keeps the old wrapper, and leaves the tagged
diagnostic directory behind. -/
theorem C6_stage2_failure_recovery_witness :
    (compileModel ⟨some 1, true, [], "h0".data, true, 50⟩
      ⟨"P".data, true, "h1".data, false, "chrpp".data, "bind".data, none,
        true, some ⟨"exit 1".data, "boom".data⟩, 2, []⟩ true).err =
      some .runtimeError ∧
    (compileModel ⟨some 1, true, [], "h0".data, true, 50⟩
      ⟨"P".data, true, "h1".data, false, "chrpp".data, "bind".data, none,
        true, some ⟨"exit 1".data, "boom".data⟩, 2, []⟩ true).state.wrapper =
      some 1 ∧
    (∃ files,
      (⟨"compilation_error_".data ++ "h1".data, files⟩ : DirEntry) ∈
        (compileModel ⟨some 1, true, [], "h0".data, true, 50⟩
          ⟨"P".data, true, "h1".data, false, "chrpp".data, "bind".data, none,
            true, some ⟨"exit 1".data, "boom".data⟩, 2, []⟩ true).state.dirs ∧
      (⟨"COMPILATION_ERROR".data,
        compilationErrorMessage "C++".data "exit 1".data "boom".data⟩ :
          FileEntry) ∈ files) := by
  have h := C6_stage2_failure_recovery ⟨some 1, true, [], "h0".data, true, 50⟩
    ⟨"P".data, true, "h1".data, false, "chrpp".data, "bind".data, none,
      true, some ⟨"exit 1".data, "boom".data⟩, 2, []⟩ true
    ⟨"exit 1".data, "boom".data⟩ rfl (Or.inr rfl) rfl rfl rfl
  obtain ⟨files, hmem, hfile, _, _⟩ := h.2.2.2.1
  exact ⟨h.1, h.2.1, files, hmem, hfile⟩

theorem pyFindAux_append_self (c : Char) (xs ys : List Char) (h : c ∉ xs) :
    pyFindAux c (xs ++ c :: ys) = some xs.length := by
  induction xs with
  | nil => simp [pyFindAux]
  | cons x xs ih =>
    have hx : ¬ x = c := fun hh => h (hh ▸ List.Mem.head _)
    simp [pyFindAux, hx, ih fun hm => h (List.Mem.tail _ hm)]

theorem pyFind_append_self (c : Char) (xs ys : List Char) (h : c ∉ xs) :
    pyFind c (xs ++ c :: ys) = (xs.length : Int) := by
  rw [pyFind, pyFindAux_append_self c xs ys h]

theorem pySliceUpto_length_append (xs r : List Char) :
    pySliceUpto (xs ++ r) (xs.length : Int) = xs := by
  unfold pySliceUpto
  rw [if_neg (by omega), show ((xs.length : Int)).toNat = xs.length by omega]
  exact List.take_left xs r

theorem pySliceFromToLast_eq (P B : List Char) (c : Char) :
    pySliceFromToLast (P ++ B ++ [c]) P.length = B := by
  unfold pySliceFromToLast
  rw [show (P ++ B ++ [c]).length - 1 = (P ++ B).length by simp,
    List.take_left, List.drop_left]

theorem pySplit_ne_nil (sep : Char) (l : List Char) : pySplit sep l ≠ [] := by
  cases l with
  | nil => simp [pySplit]
  | cons c rest =>
    cases hps : pySplit sep rest with
    | nil => exact absurd hps (pySplit_ne_nil sep rest)
    | cons a b =>
      simp only [pySplit, hps]
      split <;> simp

theorem pySplit_no_sep (sep : Char) (t : List Char) (h : sep ∉ t) :
    pySplit sep t = [t] := by
  induction t with
  | nil => rfl
  | cons c rest ih =>
    have hc : ¬ c = sep := fun hh => h (hh ▸ List.Mem.head _)
    simp only [pySplit, ih fun hm => h (List.Mem.tail _ hm)]
    simp [hc]

theorem pySplit_append_sep (sep : Char) (t rest : List Char) (h : sep ∉ t) :
    pySplit sep (t ++ sep :: rest) = t :: pySplit sep rest := by
  induction t with
  | nil =>
    cases hps : pySplit sep rest with
    | nil => exact absurd hps (pySplit_ne_nil _ _)
    | cons a b =>
      show pySplit sep (sep :: rest) = [] :: a :: b
      simp only [pySplit, hps]
      simp
  | cons c t ih =>
    have hc : ¬ c = sep := fun hh => h (hh ▸ List.Mem.head _)
    show pySplit sep (c :: (t ++ sep :: rest)) = _
    simp only [pySplit, ih fun hm => h (List.Mem.tail _ hm)]
    simp [hc]

theorem pySplit_joinSep (sep : Char) (ts : List (List Char)) (hne : ts ≠ [])
    (hc : ∀ t ∈ ts, sep ∉ t) : pySplit sep (joinSep sep ts) = ts := by
  induction ts with
  | nil => exact absurd rfl hne
  | cons t ts ih =>
    cases ts with
    | nil => exact pySplit_no_sep sep t (hc t (List.Mem.head _))
    | cons t2 ts2 =>
      rw [show joinSep sep (t :: t2 :: ts2) =
          t ++ sep :: joinSep sep (t2 :: ts2) from rfl,
        pySplit_append_sep sep t _ (hc t (List.Mem.head _)),
        ih (by simp) fun x hx => hc x (List.Mem.tail _ hx)]

/-- C1 amended: the round-trip holds for fact text in the layout the parser
is written against — `name#pragma(arg0,arg1,...)`, i.e. with the name
before the first `#` and the parenthesised argument list last.  For any
store with a non-empty declared type list, `from_chr_string` on such text
returns a constraint whose name is exactly the text before the first `#`
and whose positional values are the declared casts of the comma-separated
argument texts.  Rendering through `Constraint.__repr__`
(`name(args)#pragma`) does NOT invert: the counterexample shows the parser
then takes `gcd(182)` as the name and fails to cast `182)#Non`. -/
theorem C1_parse_engine_layout (types : List Ty) (nm pg : List Char)
    (ts : List (List Char)) (vs : List Value)
    (hty : types ≠ [])
    (hnm1 : '#' ∉ nm) (hnm2 : '(' ∉ nm) (hpg : '(' ∉ pg)
    (hts : ts ≠ []) (hcm : ∀ t ∈ ts, ',' ∉ t)
    (hcast : castPositional types ts = some vs) :
    fromChrString types
      (nm ++ '#' :: (pg ++ '(' :: (joinSep ',' ts ++ [')']))) =
      some ⟨nm, vs.map Expr.const, none⟩ := by
  have hmem : '(' ∉ nm ++ '#' :: pg := by
    intro hm
    rcases List.mem_append.mp hm with hm | hm
    · exact hnm2 hm
    · rcases hm with _ | ⟨_, hm⟩
      · exact hpg hm
  simp only [fromChrString]
  rw [pyFind_append_self '#' nm _ hnm1, pySliceUpto_length_append]
  rw [show nm ++ '#' :: (pg ++ '(' :: (joinSep ',' ts ++ [')'])) =
      (nm ++ '#' :: pg) ++ '(' :: (joinSep ',' ts ++ [')']) by simp]
  rw [pyFind_append_self '(' (nm ++ '#' :: pg) _ hmem]
  rw [show (((nm ++ '#' :: pg).length : Int) + 1).toNat =
      ((nm ++ '#' :: pg) ++ ['(']).length by simp; omega]
  rw [show (nm ++ '#' :: pg) ++ '(' :: (joinSep ',' ts ++ [')']) =
      ((nm ++ '#' :: pg) ++ ['(']) ++ joinSep ',' ts ++ [')'] by simp]
  rw [pySliceFromToLast_eq, pySplit_joinSep ',' ts hts hcm]
  rw [if_neg hty]
  rw [show (do
      let vals ← castPositional types ts
      some (⟨nm, vals.map Expr.const, none⟩ : Constraint)) =
    (castPositional types ts).bind
      (fun vals => some (⟨nm, vals.map Expr.const, none⟩ : Constraint))
    from rfl, hcast]
  rfl

/-- C1 witness: `gcd#1(182)` parses, against declared types `(int,)`, to a
constraint named `gcd` holding the value 182. -/
theorem C1_parse_engine_layout_witness :
    fromChrString [Ty.int]
      ("gcd".data ++ '#' ::
        ("1".data ++ '(' :: (joinSep ',' ["182".data] ++ [')']))) =
      some ⟨"gcd".data, [Expr.const (.int 182)], none⟩ :=
  C1_parse_engine_layout [Ty.int] "gcd".data "1".data ["182".data]
    [Value.int 182] (by decide) (by decide) (by decide) (by decide)
    (by decide) (by decide) (by decide)

end Chrpypy
